import Mathlib

/-!
Verification of the fairness-metric core of the repository
(`src/fairness.py`): the streaming SPD and EOD metric accumulators and
the covariance-based `FairnessLoss`.

Modelling conventions:
* torch integer counter tensors (`torch.tensor(0)` states) become `ℕ`;
* float tensors become `ℚ` (exact rational arithmetic stands in for
  IEEE floats, as usual for a shallow embedding);
* 1-D tensors become `List ℚ` / `List Bool`; a feature matrix becomes a
  `List (List ℚ)` of rows;
* a torch operation that raises (boolean-mask indexing with a mismatched
  mask, `matmul` with incompatible shapes, a failed `assert`) is modelled
  by `Option`: `none` is the raised exception, in which case the metric
  state is unchanged (all torch indexing in `update` happens before any
  counter is incremented, so a raise leaves the counters untouched);
* `torch.logical_and` broadcasts 1-D arguments exactly as torch does:
  equal lengths zip, a length-1 operand is broadcast, anything else
  raises.
-/

namespace FairnessAttacks

/-- The four-counter accumulator state shared by `SPD` and `EOD`
(`add_state` calls in `SPD.__init__` / `EOD.__init__`). -/
@[ext]
structure MState where
  preds_adv_pos : ℕ
  preds_dis_pos : ℕ
  num_adv : ℕ
  num_dis : ℕ
deriving DecidableEq, Repr

/-- Initial state: all four counters default to `torch.tensor(0)`. -/
def MState.init : MState := ⟨0, 0, 0, 0⟩

/-- Counter-wise addition: the merge declared by
`dist_reduce_fx="sum"` on every state in `SPD.__init__`/`EOD.__init__`. -/
def MState.merge (a b : MState) : MState :=
  ⟨a.preds_adv_pos + b.preds_adv_pos, a.preds_dis_pos + b.preds_dis_pos,
   a.num_adv + b.num_adv, a.num_dis + b.num_dis⟩

/-- Boolean-mask selection `xs[mask]` on 1-D tensors of equal length
(the caller checks the length). -/
def maskSelect (xs : List ℚ) (mask : List Bool) : List ℚ :=
  (xs.zip mask).filterMap (fun pm => if pm.2 then some pm.1 else none)

/-- Boolean-mask indexing `xs[mask]`: torch raises an `IndexError` when
the mask length differs from the tensor length. -/
def maskIndex (xs : List ℚ) (mask : List Bool) : Option (List ℚ) :=
  if mask.length = xs.length then some (maskSelect xs mask) else none

/-- Model of `torch.logical_and` on 1-D boolean tensors, with the torch
broadcasting rule: equal lengths zip elementwise, a length-1 operand is
broadcast against the other, any other mismatch raises. -/
def logicalAnd (xs ys : List Bool) : Option (List Bool) :=
  if xs.length = ys.length then some (List.zipWith (· && ·) xs ys)
  else if xs.length = 1 then some (ys.map (fun y => xs.headI && y))
  else if ys.length = 1 then some (xs.map (fun x => x && ys.headI))
  else none

namespace SPD

/-- The counter increments of `SPD.update` for a batch whose mask length
matches (`preds_adv = preds[adv_mask]`, `preds_dis = preds[~adv_mask]`,
then the four `+=`). -/
def updateCore (s : MState) (preds : List ℚ) (adv_mask : List Bool) : MState :=
  let preds_adv := maskSelect preds adv_mask
  let preds_dis := maskSelect preds (adv_mask.map not)
  { preds_adv_pos := s.preds_adv_pos + preds_adv.count 1
    preds_dis_pos := s.preds_dis_pos + preds_dis.count 1
    num_adv := s.num_adv + preds_adv.length
    num_dis := s.num_dis + preds_dis.length }

/-- Model of `SPD.update`: `preds[adv_mask]` raises when the lengths differ
(before any counter is touched); otherwise the counters are bumped. -/
def update (s : MState) (preds : List ℚ) (adv_mask : List Bool) :
    Option MState :=
  if adv_mask.length = preds.length then some (updateCore s preds adv_mask)
  else none

/-- Model of `SPD.compute`: `|preds_adv_pos / max(num_adv, 1) -
preds_dis_pos / max(num_dis, 1)|`. -/
def compute (s : MState) : ℚ :=
  |(s.preds_adv_pos : ℚ) / (max s.num_adv 1 : ℕ)
    - (s.preds_dis_pos : ℚ) / (max s.num_dis 1 : ℕ)|

/-- Folding a whole update history (a list of `(preds, adv_mask)`
batches) from the freshly initialised state. -/
def run (bs : List (List ℚ × List Bool)) : MState :=
  bs.foldl (fun s b => updateCore s b.1 b.2) MState.init

end SPD

namespace EOD

/-- The counter increments of `EOD.update` for a batch with all lengths
equal: `preds_adv = preds[adv_mask ∧ targets.bool()]`,
`preds_dis = preds[~adv_mask ∧ targets.bool()]`, positive counts from
`== 1`, totals from `.sum()` of the masks. -/
def updateCore (s : MState) (preds targets : List ℚ)
    (adv_mask : List Bool) : MState :=
  let tb := targets.map (fun t => decide (t ≠ 0))
  let mask_adv := List.zipWith (· && ·) adv_mask tb
  let mask_dis := List.zipWith (· && ·) (adv_mask.map not) tb
  { preds_adv_pos := s.preds_adv_pos + (maskSelect preds mask_adv).count 1
    preds_dis_pos := s.preds_dis_pos + (maskSelect preds mask_dis).count 1
    num_adv := s.num_adv + mask_adv.countP id
    num_dis := s.num_dis + mask_dis.countP id }

/-- Model of `EOD.update` with the torch raising/broadcasting behaviour:
`logical_and` broadcasts a length-1 operand, boolean-mask indexing of
`preds` raises on a length mismatch; all raises happen before any
counter is incremented. -/
def update (s : MState) (preds targets : List ℚ)
    (adv_mask : List Bool) : Option MState := do
  let tb := targets.map (fun t => decide (t ≠ 0))
  let mask_adv ← logicalAnd adv_mask tb
  let mask_dis ← logicalAnd (adv_mask.map not) tb
  let preds_adv ← maskIndex preds mask_adv
  let preds_dis ← maskIndex preds mask_dis
  some { preds_adv_pos := s.preds_adv_pos + preds_adv.count 1
         preds_dis_pos := s.preds_dis_pos + preds_dis.count 1
         num_adv := s.num_adv + mask_adv.countP id
         num_dis := s.num_dis + mask_dis.countP id }

/-- Model of `EOD.compute`: same formula as `SPD.compute`, on the
label-conditioned counters. -/
def compute (s : MState) : ℚ :=
  |(s.preds_adv_pos : ℚ) / (max s.num_adv 1 : ℕ)
    - (s.preds_dis_pos : ℚ) / (max s.num_dis 1 : ℕ)|

/-- Folding a whole update history (a list of
`(preds, targets, adv_mask)` batches) from the initial state. -/
def run (bs : List (List ℚ × List ℚ × List Bool)) : MState :=
  bs.foldl (fun s b => updateCore s b.1 b.2.1 b.2.2) MState.init

end EOD

namespace FairnessLoss

/-- Dot product of two equal-length 1-D tensors (the rows are zipped
with the weight vector and summed). -/
def dot (r v : List ℚ) : ℚ := (List.zipWith (· * ·) r v).sum

/-- Matrix-vector product `X @ v` for a matrix given as rows: torch raises a `RuntimeError`
when a row length does not match the vector length. -/
def matVec (X : List (List ℚ)) (v : List ℚ) : Option (List ℚ) :=
  if X.all (fun r => r.length = v.length) then some (X.map (fun r => dot r v))
  else none

/-- Column extraction `X[:, idx]`: torch raises an `IndexError` when `idx` is out of range
for some row. -/
def column (X : List (List ℚ)) (idx : ℕ) : Option (List ℚ) :=
  if X.all (fun r => idx < r.length) then some (X.map (fun r => r.getD idx 0))
  else none

/-- Mean `torch.mean` of a 1-D tensor (sum over length; the empty tensor,
NaN in torch, is outside the hypotheses of every claim). -/
def listMean (xs : List ℚ) : ℚ := xs.sum / xs.length

/-- Model of `FairnessLoss.forward` after the `assert`: `z = X[:, idx]`, then
`mean((z - z.mean()) * (X @ theta[:-1]))` (`theta[:-1]` is
`theta.dropLast`). -/
def forward (idx : ℕ) (X : List (List ℚ)) (theta : List ℚ) : Option ℚ := do
  let z ← column X idx
  let score ← matVec X theta.dropLast
  some (listMean (List.zipWith (fun zi si => (zi - listMean z) * si) z score))

/-- A torch tensor of dimension 0, 1 or 2, as far as
the `assert theta.ndim == 1` in `FairnessLoss.forward` needs to
distinguish. -/
inductive PTensor where
  | dim0 (x : ℚ)
  | dim1 (v : List ℚ)
  | dim2 (m : List (List ℚ))
deriving DecidableEq, Repr

/-- Number of dimensions, `Tensor.ndim`. -/
def PTensor.ndim : PTensor → ℕ
  | .dim0 _ => 0
  | .dim1 _ => 1
  | .dim2 _ => 2

/-- Model of `FairnessLoss.forward` including the leading
`assert isinstance(theta, torch.Tensor) and theta.ndim == 1`: a
non-1-dimensional `theta` raises an `AssertionError` before anything is
computed. -/
def forwardT (idx : ℕ) (X : List (List ℚ)) (theta : PTensor) : Option ℚ :=
  match theta with
  | .dim1 v => forward idx X v
  | _ => none

/-- Spec-side restatement of the loss, written with explicit index
sums over `List.range` rather than the mapped list pipeline of the
code: `(1/N) * Σ_i (z_i - (1/N) Σ_j z_j) * (Σ_k X_{i,k} * theta_k)`
with `k` ranging over the first `len(theta) - 1` entries of `theta`. -/
def covSpec (idx : ℕ) (X : List (List ℚ)) (theta : List ℚ) : ℚ :=
  let N := X.length
  let z : ℕ → ℚ := fun i => (X.getD i []).getD idx 0
  let zbar : ℚ := (((List.range N).map z).sum) / N
  (((List.range N).map (fun i =>
    (z i - zbar) *
      ((List.range (theta.length - 1)).map
        (fun k => (X.getD i []).getD k 0 * theta.getD k 0)).sum)).sum) / N

end FairnessLoss

/-! Helper lemmas. -/

theorem maskSelect_cons (x : ℚ) (xs : List ℚ) (b : Bool) (bs : List Bool) :
    maskSelect (x :: xs) (b :: bs) =
      if b then x :: maskSelect xs bs else maskSelect xs bs := by
  cases b <;> simp [maskSelect]

theorem maskSelect_eq_nil_of_allfalse {p : List ℚ} {m : List Bool}
    (h : ∀ x ∈ m, x = false) : maskSelect p m = [] := by
  unfold maskSelect
  rw [List.filterMap_eq_nil_iff]
  rintro ⟨a, b⟩ hab
  have hb := (List.of_mem_zip hab).2
  simp [h b hb]

theorem spd_foldl_allfalse (bs : List (List ℚ × List Bool))
    (h : ∀ b ∈ bs, ∀ x ∈ b.2, x = false) (s : MState) :
    (bs.foldl (fun s b => SPD.updateCore s b.1 b.2) s).preds_adv_pos
      = s.preds_adv_pos := by
  induction bs generalizing s with
  | nil => rfl
  | cons b bs ih =>
    have hsel : maskSelect b.1 b.2 =
        [] := maskSelect_eq_nil_of_allfalse (h b (List.mem_cons_self ..))
    simp only [List.foldl_cons]
    rw [ih (fun c hc => h c (List.mem_cons_of_mem _ hc))]
    simp [SPD.updateCore, hsel]

theorem maskSelect_append {p₁ : List ℚ} {m₁ : List Bool}
    (p₂ : List ℚ) (m₂ : List Bool) (h : p₁.length = m₁.length) :
    maskSelect (p₁ ++ p₂) (m₁ ++ m₂) =
      maskSelect p₁ m₁ ++ maskSelect p₂ m₂ := by
  unfold maskSelect
  rw [List.zip_append h, List.filterMap_append]

theorem spd_core_append (s : MState) (p₁ p₂ : List ℚ) (m₁ m₂ : List Bool)
    (h : p₁.length = m₁.length) :
    SPD.updateCore s (p₁ ++ p₂) (m₁ ++ m₂) =
      SPD.updateCore (SPD.updateCore s p₁ m₁) p₂ m₂ := by
  have h' : p₁.length = (m₁.map not).length := by simpa using h
  simp only [SPD.updateCore, List.map_append, maskSelect_append _ _ h,
    maskSelect_append _ _ h']
  refine MState.ext ?_ ?_ ?_ ?_ <;>
    simp [List.count_append, Nat.add_assoc]

theorem eod_core_append (s : MState) (p₁ p₂ t₁ t₂ : List ℚ)
    (m₁ m₂ : List Bool) (hpt : p₁.length = t₁.length)
    (hpm : p₁.length = m₁.length) :
    EOD.updateCore s (p₁ ++ p₂) (t₁ ++ t₂) (m₁ ++ m₂) =
      EOD.updateCore (EOD.updateCore s p₁ t₁ m₁) p₂ t₂ m₂ := by
  have h₁ : m₁.length = (t₁.map (fun t => decide (t ≠ 0))).length := by
    simp only [List.length_map]; omega
  have h₂ : (m₁.map not).length =
      (t₁.map (fun t => decide (t ≠ 0))).length := by
    simp only [List.length_map]; omega
  have h₃ : p₁.length =
      (List.zipWith (· && ·) m₁ (t₁.map (fun t => decide (t ≠ 0)))).length := by
    simp only [List.length_zipWith, List.length_map]; omega
  have h₄ : p₁.length =
      (List.zipWith (· && ·) (m₁.map not)
        (t₁.map (fun t => decide (t ≠ 0)))).length := by
    simp only [List.length_zipWith, List.length_map]; omega
  simp only [EOD.updateCore, List.map_append,
    List.zipWith_append _ _ _ _ _ h₁, List.zipWith_append _ _ _ _ _ h₂,
    maskSelect_append _ _ h₃, maskSelect_append _ _ h₄]
  refine MState.ext ?_ ?_ ?_ ?_ <;>
    simp [List.count_append, List.countP_append, Nat.add_assoc]

theorem foldl_of_comm {α : Type} (f : MState → α → MState)
    (hf : ∀ s a b, f (f s a) b = f (f s b) a) :
    ∀ {l₁ l₂ : List α}, l₁.Perm l₂ → ∀ s, l₁.foldl f s = l₂.foldl f s := by
  intro l₁ l₂ h
  induction h with
  | nil => intro s; rfl
  | cons x _ ih => intro s; simp only [List.foldl_cons]; exact ih _
  | swap x y l => intro s; simp only [List.foldl_cons]; rw [hf]
  | trans _ _ ih₁ ih₂ => intro s; rw [ih₁ s, ih₂ s]

theorem spd_updateCore_comm (s : MState) (a b : List ℚ × List Bool) :
    SPD.updateCore (SPD.updateCore s a.1 a.2) b.1 b.2 =
      SPD.updateCore (SPD.updateCore s b.1 b.2) a.1 a.2 := by
  refine MState.ext ?_ ?_ ?_ ?_ <;> simp [SPD.updateCore] <;> omega

theorem eod_updateCore_comm (s : MState)
    (a b : List ℚ × List ℚ × List Bool) :
    EOD.updateCore (EOD.updateCore s a.1 a.2.1 a.2.2) b.1 b.2.1 b.2.2 =
      EOD.updateCore (EOD.updateCore s b.1 b.2.1 b.2.2) a.1 a.2.1 a.2.2 := by
  refine MState.ext ?_ ?_ ?_ ?_ <;> simp [EOD.updateCore] <;> omega

theorem maskSelect_length {p : List ℚ} :
    ∀ {m : List Bool}, m.length = p.length →
      (maskSelect p m).length = m.countP id := by
  induction p with
  | nil =>
    intro m hm
    rw [List.eq_nil_of_length_eq_zero hm]
    rfl
  | cons x xs ih =>
    intro m hm
    cases m with
    | nil => simp at hm
    | cons b bs =>
      rw [maskSelect_cons]
      cases b <;> simp [List.countP_cons, ih (by simpa using hm)]

theorem spd_run_invariant (bs : List (List ℚ × List Bool)) :
    ∀ s : MState, s.preds_adv_pos ≤ s.num_adv →
      s.preds_dis_pos ≤ s.num_dis →
      (bs.foldl (fun s b => SPD.updateCore s b.1 b.2) s).preds_adv_pos ≤
          (bs.foldl (fun s b => SPD.updateCore s b.1 b.2) s).num_adv
        ∧ (bs.foldl (fun s b => SPD.updateCore s b.1 b.2) s).preds_dis_pos ≤
          (bs.foldl (fun s b => SPD.updateCore s b.1 b.2) s).num_dis := by
  induction bs with
  | nil => intro s h1 h2; exact ⟨h1, h2⟩
  | cons b bs ih =>
    intro s h1 h2
    simp only [List.foldl_cons]
    apply ih
    · have := List.count_le_length 1 (maskSelect b.1 b.2)
      simp only [SPD.updateCore]
      omega
    · have := List.count_le_length 1 (maskSelect b.1 (b.2.map not))
      simp only [SPD.updateCore]
      omega

theorem eod_run_invariant (cs : List (List ℚ × List ℚ × List Bool))
    (hlen : ∀ b ∈ cs, b.1.length = b.2.1.length
      ∧ b.1.length = b.2.2.length) :
    ∀ s : MState, s.preds_adv_pos ≤ s.num_adv →
      s.preds_dis_pos ≤ s.num_dis →
      (cs.foldl (fun s b => EOD.updateCore s b.1 b.2.1 b.2.2) s).preds_adv_pos
          ≤ (cs.foldl (fun s b => EOD.updateCore s b.1 b.2.1 b.2.2) s).num_adv
        ∧ (cs.foldl
            (fun s b => EOD.updateCore s b.1 b.2.1 b.2.2) s).preds_dis_pos
          ≤ (cs.foldl
            (fun s b => EOD.updateCore s b.1 b.2.1 b.2.2) s).num_dis := by
  induction cs with
  | nil => intro s h1 h2; exact ⟨h1, h2⟩
  | cons b cs ih =>
    intro s h1 h2
    obtain ⟨ht, hm⟩ := hlen b (List.mem_cons_self ..)
    simp only [List.foldl_cons]
    apply ih (fun c hc => hlen c (List.mem_cons_of_mem _ hc))
    · have hl : (List.zipWith (· && ·) b.2.2
          (b.2.1.map (fun t => decide (t ≠ 0)))).length = b.1.length := by
        simp only [List.length_zipWith, List.length_map]; omega
      have hsel := maskSelect_length (p := b.1) hl
      have := List.count_le_length 1 (maskSelect b.1
        (List.zipWith (· && ·) b.2.2 (b.2.1.map (fun t => decide (t ≠ 0)))))
      simp only [EOD.updateCore]
      omega
    · have hl : (List.zipWith (· && ·) (b.2.2.map not)
          (b.2.1.map (fun t => decide (t ≠ 0)))).length = b.1.length := by
        simp only [List.length_zipWith, List.length_map]; omega
      have hsel := maskSelect_length (p := b.1) hl
      have := List.count_le_length 1 (maskSelect b.1
        (List.zipWith (· && ·) (b.2.2.map not)
          (b.2.1.map (fun t => decide (t ≠ 0)))))
      simp only [EOD.updateCore]
      omega

theorem eod_compute_eq_spd (s : MState) : EOD.compute s = SPD.compute s := rfl

theorem compute_bounds (s : MState) (h1 : s.preds_adv_pos ≤ s.num_adv)
    (h2 : s.preds_dis_pos ≤ s.num_dis) :
    0 ≤ SPD.compute s ∧ SPD.compute s ≤ 1 := by
  have hca : (0:ℚ) < ((max s.num_adv 1 : ℕ) : ℚ) := by
    exact_mod_cast Nat.lt_of_lt_of_le Nat.zero_lt_one (le_max_right s.num_adv 1)
  have hcd : (0:ℚ) < ((max s.num_dis 1 : ℕ) : ℚ) := by
    exact_mod_cast Nat.lt_of_lt_of_le Nat.zero_lt_one (le_max_right s.num_dis 1)
  have ha1 : (s.preds_adv_pos : ℚ) / ((max s.num_adv 1 : ℕ) : ℚ) ≤ 1 := by
    rw [div_le_one hca]
    exact_mod_cast le_trans h1 (le_max_left _ _)
  have hd1 : (s.preds_dis_pos : ℚ) / ((max s.num_dis 1 : ℕ) : ℚ) ≤ 1 := by
    rw [div_le_one hcd]
    exact_mod_cast le_trans h2 (le_max_left _ _)
  have ha0 : 0 ≤ (s.preds_adv_pos : ℚ) / ((max s.num_adv 1 : ℕ) : ℚ) :=
    div_nonneg (Nat.cast_nonneg _) (Nat.cast_nonneg _)
  have hd0 : 0 ≤ (s.preds_dis_pos : ℚ) / ((max s.num_dis 1 : ℕ) : ℚ) :=
    div_nonneg (Nat.cast_nonneg _) (Nat.cast_nonneg _)
  refine ⟨abs_nonneg _, ?_⟩
  rw [SPD.compute, abs_le]
  constructor <;> linarith

theorem eod_update_eq_core (s : MState) (p t : List ℚ) (m : List Bool)
    (hpt : p.length = t.length) (hpm : p.length = m.length) :
    EOD.update s p t m = some (EOD.updateCore s p t m) := by
  have h1 : m.length = (t.map (fun x => decide (x ≠ 0))).length := by
    simp only [List.length_map]; omega
  have h2 : (m.map not).length =
      (t.map (fun x => decide (x ≠ 0))).length := by
    simp only [List.length_map]; omega
  have h3 : (List.zipWith (· && ·) m
      (t.map fun x => decide (x ≠ 0))).length = p.length := by
    simp only [List.length_zipWith, List.length_map]; omega
  have h4 : (List.zipWith (· && ·) (m.map not)
      (t.map fun x => decide (x ≠ 0))).length = p.length := by
    simp only [List.length_zipWith, List.length_map]; omega
  simp only [EOD.update, EOD.updateCore, logicalAnd, maskIndex]
  rw [if_pos h1, if_pos h2]
  simp only [Option.bind_eq_bind, Option.some_bind]
  rw [if_pos h3, if_pos h4]
  rfl

theorem eod_count_sel (g : Bool → Bool) :
    ∀ (p t : List ℚ) (m : List Bool), p.length = t.length →
      p.length = m.length → (∀ x ∈ t, x = 0 ∨ x = 1) →
      (maskSelect p (List.zipWith (· && ·) (m.map g)
        (t.map fun x => decide (x ≠ 0)))).count 1
        = (p.zip (t.zip m)).countP
            fun x => decide (x.1 = 1 ∧ x.2.1 = 1 ∧ g x.2.2 = true) := by
  intro p
  induction p with
  | nil => intro t m _ _ _; rfl
  | cons x xs ih =>
    intro t m hpt hpm ht
    cases t with
    | nil => simp at hpt
    | cons y ys =>
      cases m with
      | nil => simp at hpm
      | cons b bs =>
        have ihy := ih ys bs (by simpa using hpt) (by simpa using hpm)
          (fun z hz => ht z (List.mem_cons_of_mem _ hz))
        rcases ht y (List.mem_cons_self ..) with hy | hy <;> subst hy <;>
          cases hgb : g b <;>
          simpa [maskSelect_cons, List.count_cons, List.countP_cons, hgb]
            using ihy

theorem eod_count_num (g : Bool → Bool) :
    ∀ (t : List ℚ) (m : List Bool), t.length = m.length →
      (∀ x ∈ t, x = 0 ∨ x = 1) →
      (List.zipWith (· && ·) (m.map g)
        (t.map fun x => decide (x ≠ 0))).countP id
        = (t.zip m).countP fun x => decide (x.1 = 1 ∧ g x.2 = true) := by
  intro t
  induction t with
  | nil => intro m _ _; simp
  | cons y ys ih =>
    intro m htm ht
    cases m with
    | nil => simp at htm
    | cons b bs =>
      have ihy := ih bs (by simpa using htm)
        (fun z hz => ht z (List.mem_cons_of_mem _ hz))
      rcases ht y (List.mem_cons_self ..) with hy | hy <;> subst hy <;>
        cases hgb : g b <;>
        simpa [List.countP_cons, hgb] using ihy

theorem logicalAnd_eq_none {xs ys : List Bool} (h : ¬xs.length = ys.length)
    (hx : ¬xs.length = 1) (hy : ¬ys.length = 1) : logicalAnd xs ys = none := by
  unfold logicalAnd
  rw [if_neg h, if_neg hx, if_neg hy]

theorem range_map_getD {α β : Type} (l : List α) (d : α) (F : α → β) :
    (List.range l.length).map (fun i => F (l.getD i d)) = l.map F := by
  induction l with
  | nil => rfl
  | cons a t ih =>
    simp only [List.length_cons, List.range_succ_eq_map, List.map_cons,
      List.map_map, List.getD_cons_zero]
    refine congrArg₂ List.cons rfl ?_
    rw [show ((fun i => F ((a :: t).getD i d)) ∘ Nat.succ)
        = (fun i => F (t.getD i d)) from funext fun i => rfl]
    exact ih

theorem zipWith_mul_eq_range_map :
    ∀ (xs ys : List ℚ), xs.length = ys.length →
      List.zipWith (· * ·) xs ys =
        (List.range xs.length).map (fun k => xs.getD k 0 * ys.getD k 0) := by
  intro xs
  induction xs with
  | nil => intro ys h; rfl
  | cons x xs ih =>
    intro ys h
    cases ys with
    | nil => simp at h
    | cons y ys =>
      simp only [List.zipWith_cons_cons, List.length_cons,
        List.range_succ_eq_map, List.map_cons, List.map_map,
        List.getD_cons_zero]
      refine congrArg₂ List.cons rfl ?_
      rw [show ((fun k => (x :: xs).getD k 0 * (y :: ys).getD k 0) ∘ Nat.succ)
          = (fun k => xs.getD k 0 * ys.getD k 0) from funext fun k => rfl]
      exact ih ys (by simpa using h)

theorem getD_dropLast {theta : List ℚ} {k : ℕ}
    (hk : k < theta.dropLast.length) :
    theta.dropLast.getD k 0 = theta.getD k 0 := by
  have hk2 : k < theta.length :=
    Nat.lt_of_lt_of_le hk (by rw [List.length_dropLast]; omega)
  rw [List.getD_eq_getElem?_getD, List.getD_eq_getElem?_getD,
    List.getElem?_eq_getElem hk, List.getElem?_eq_getElem hk2]
  simp [List.getElem_dropLast]

theorem dot_dropLast_eq_range_sum (r theta : List ℚ) (D : ℕ)
    (hr : r.length = D) (ht : theta.length = D + 1) :
    FairnessLoss.dot r theta.dropLast =
      ((List.range (theta.length - 1)).map
        (fun k => r.getD k 0 * theta.getD k 0)).sum := by
  have hdl : theta.dropLast.length = D := by
    rw [List.length_dropLast, ht]
    omega
  unfold FairnessLoss.dot
  rw [zipWith_mul_eq_range_map r theta.dropLast (by omega)]
  have hlen : theta.length - 1 = r.length := by omega
  rw [hlen]
  refine congrArg List.sum (List.map_congr_left ?_)
  intro k hk
  have hk' : k < theta.dropLast.length := by
    rw [hdl, ← hr]; exact List.mem_range.mp hk
  rw [getD_dropLast hk']

theorem zipWith_map_same {α β γ δ : Type} (f : β → γ → δ) (g : α → β)
    (h : α → γ) :
    ∀ l : List α,
      List.zipWith f (l.map g) (l.map h) = l.map (fun x => f (g x) (h x)) := by
  intro l
  induction l with
  | nil => rfl
  | cons a t ih => simp [ih]

theorem zipWith_center_replicate_sum (c : ℚ) :
    ∀ (n : ℕ) (s : List ℚ),
      (List.zipWith (fun zi si => (zi - c) * si)
        (List.replicate n c) s).sum = 0 := by
  intro n
  induction n with
  | zero => intro s; rfl
  | succ k ih =>
    intro s
    cases s with
    | nil => rfl
    | cons y ys => simp [List.replicate_succ, ih, sub_self]

/-! Claim theorems. -/

/-- C1: for every update history, `SPD.compute` returns the absolute
difference `|preds_adv_pos / max(num_adv, 1) -
preds_dis_pos / max(num_dis, 1)|` (each probability is `0` when the
total counter is `0`, by the `max`-with-`1` denominator, with no
exception raised); and when `adv_mask` was all-false in every update,
`compute` equals the disadvantaged positive rate
`preds_dis_pos / max(num_dis, 1)`. -/
theorem C1_spd_compute_formula_and_allfalse_history :
    (∀ s : MState, SPD.compute s =
        |(s.preds_adv_pos : ℚ) / ((max s.num_adv 1 : ℕ) : ℚ)
          - (s.preds_dis_pos : ℚ) / ((max s.num_dis 1 : ℕ) : ℚ)|)
    ∧ ∀ bs : List (List ℚ × List Bool),
        (∀ b ∈ bs, ∀ x ∈ b.2, x = false) →
        SPD.compute (SPD.run bs) =
          ((SPD.run bs).preds_dis_pos : ℚ)
            / ((max (SPD.run bs).num_dis 1 : ℕ) : ℚ) := by
  constructor
  · intro s
    rfl
  · intro bs h
    have hpos : (SPD.run bs).preds_adv_pos = 0 := spd_foldl_allfalse bs h _
    have hnn : 0 ≤ ((SPD.run bs).preds_dis_pos : ℚ)
        / ((max (SPD.run bs).num_dis 1 : ℕ) : ℚ) :=
      div_nonneg (Nat.cast_nonneg _) (Nat.cast_nonneg _)
    rw [SPD.compute, hpos]
    rw [Nat.cast_zero, zero_div, zero_sub, abs_neg, abs_of_nonneg hnn]

/-- C1 witness: a concrete two-batch history with all-false masks. -/
theorem C1_witness :
    (∀ b ∈ [(([1, 0, 1] : List ℚ), ([false, false, false] : List Bool)),
            (([1, 1] : List ℚ), ([false, false] : List Bool))],
        ∀ x ∈ b.2, x = false)
    ∧ SPD.compute (SPD.run
        [(([1, 0, 1] : List ℚ), ([false, false, false] : List Bool)),
         (([1, 1] : List ℚ), ([false, false] : List Bool))]) =
      ((SPD.run [(([1, 0, 1] : List ℚ), ([false, false, false] : List Bool)),
         (([1, 1] : List ℚ), ([false, false] : List Bool))]).preds_dis_pos : ℚ)
        / ((max (SPD.run
            [(([1, 0, 1] : List ℚ), ([false, false, false] : List Bool)),
             (([1, 1] : List ℚ), ([false, false] : List Bool))]).num_dis
            1 : ℕ) : ℚ) :=
  ⟨by decide, C1_spd_compute_formula_and_allfalse_history.2 _ (by decide)⟩

/-- C7: counter-wise addition of two accumulator states (the declared
`dist_reduce_fx="sum"` merge) is commutative, hence both merge orders
give identical states and identical `SPD.compute` / `EOD.compute`
values. -/
theorem C7_merge_commutativity :
    ∀ a b : MState, a.merge b = b.merge a
      ∧ SPD.compute (a.merge b) = SPD.compute (b.merge a)
      ∧ EOD.compute (a.merge b) = EOD.compute (b.merge a) := by
  intro a b
  have h : a.merge b = b.merge a := by
    refine MState.ext ?_ ?_ ?_ ?_ <;> simp [MState.merge, Nat.add_comm]
  exact ⟨h, by rw [h], by rw [h]⟩

/-- C9: `FairnessLoss.forward` raises (returns no value) on every
`theta` that is not one-dimensional, and for one-dimensional `theta`
the `assert` passes and the computation proceeds. -/
theorem C9_theta_must_be_one_dimensional :
    (∀ (idx : ℕ) (X : List (List ℚ)) (theta : FairnessLoss.PTensor),
        theta.ndim ≠ 1 → FairnessLoss.forwardT idx X theta = none)
    ∧ ∀ (idx : ℕ) (X : List (List ℚ)) (v : List ℚ),
        (FairnessLoss.PTensor.dim1 v).ndim = 1
          ∧ FairnessLoss.forwardT idx X (FairnessLoss.PTensor.dim1 v)
              = FairnessLoss.forward idx X v := by
  constructor
  · intro idx X theta h
    cases theta with
    | dim0 x => rfl
    | dim1 v => exact absurd rfl h
    | dim2 m => rfl
  · intro idx X v
    exact ⟨rfl, rfl⟩

/-- C6: splitting a batch into two sub-batches (with `adv_mask`, and
for EOD `targets`, split at the same point) and updating sequentially
leaves the accumulator in the same state as one update on the full
batch, hence the same `compute` result, for both metrics. -/
theorem C6_streaming_additivity :
    (∀ (s : MState) (p₁ p₂ : List ℚ) (m₁ m₂ : List Bool),
        p₁.length = m₁.length →
        SPD.updateCore s (p₁ ++ p₂) (m₁ ++ m₂) =
          SPD.updateCore (SPD.updateCore s p₁ m₁) p₂ m₂
        ∧ SPD.compute (SPD.updateCore s (p₁ ++ p₂) (m₁ ++ m₂)) =
          SPD.compute (SPD.updateCore (SPD.updateCore s p₁ m₁) p₂ m₂))
    ∧ ∀ (s : MState) (p₁ p₂ t₁ t₂ : List ℚ) (m₁ m₂ : List Bool),
        p₁.length = t₁.length → p₁.length = m₁.length →
        EOD.updateCore s (p₁ ++ p₂) (t₁ ++ t₂) (m₁ ++ m₂) =
          EOD.updateCore (EOD.updateCore s p₁ t₁ m₁) p₂ t₂ m₂
        ∧ EOD.compute (EOD.updateCore s (p₁ ++ p₂) (t₁ ++ t₂) (m₁ ++ m₂)) =
          EOD.compute
            (EOD.updateCore (EOD.updateCore s p₁ t₁ m₁) p₂ t₂ m₂) := by
  constructor
  · intro s p₁ p₂ m₁ m₂ h
    have he := spd_core_append s p₁ p₂ m₁ m₂ h
    exact ⟨he, by rw [he]⟩
  · intro s p₁ p₂ t₁ t₂ m₁ m₂ hpt hpm
    have he := eod_core_append s p₁ p₂ t₁ t₂ m₁ m₂ hpt hpm
    exact ⟨he, by rw [he]⟩

/-- C6 witness: a concrete split batch for each metric. -/
theorem C6_witness :
    (([1, 0] : List ℚ).length = ([true, false] : List Bool).length
      ∧ SPD.updateCore MState.init ([1, 0] ++ [1]) ([true, false] ++ [true])
          = SPD.updateCore
              (SPD.updateCore MState.init [1, 0] [true, false]) [1] [true])
    ∧ ([1, 0] : List ℚ).length = ([1, 1] : List ℚ).length
      ∧ EOD.updateCore MState.init ([1, 0] ++ [1]) ([1, 1] ++ [0])
          ([true, false] ++ [true])
        = EOD.updateCore
            (EOD.updateCore MState.init [1, 0] [1, 1] [true, false])
            [1] [0] [true] :=
  ⟨⟨by decide,
    (C6_streaming_additivity.1 MState.init [1, 0] [1] [true, false] [true]
      (by decide)).1⟩,
   by decide,
   (C6_streaming_additivity.2 MState.init [1, 0] [1] [1, 1] [0]
      [true, false] [true] (by decide) (by decide)).1⟩

/-- C8: applying the update calls of either metric in any permutation
of the batch order leaves the accumulator in the same final state, so
`compute` does not depend on the order of update calls. -/
theorem C8_update_order_invariance :
    ∀ (bs₁ bs₂ : List (List ℚ × List Bool))
      (cs₁ cs₂ : List (List ℚ × List ℚ × List Bool)),
      bs₁.Perm bs₂ → cs₁.Perm cs₂ →
      SPD.run bs₁ = SPD.run bs₂ ∧ EOD.run cs₁ = EOD.run cs₂ := by
  intro bs₁ bs₂ cs₁ cs₂ h₁ h₂
  exact ⟨foldl_of_comm _ (fun s a b => spd_updateCore_comm s a b) h₁ _,
    foldl_of_comm _ (fun s a b => eod_updateCore_comm s a b) h₂ _⟩

/-- C8 witness: swapping two concrete batches. -/
theorem C8_witness :
    ([(([1, 0] : List ℚ), ([true, false] : List Bool)),
      (([1] : List ℚ), ([true] : List Bool))].Perm
      [(([1] : List ℚ), ([true] : List Bool)),
       (([1, 0] : List ℚ), ([true, false] : List Bool))])
    ∧ ([(([1] : List ℚ), ([1] : List ℚ), ([false] : List Bool)),
        (([0] : List ℚ), ([1] : List ℚ), ([true] : List Bool))].Perm
        [(([0] : List ℚ), ([1] : List ℚ), ([true] : List Bool)),
         (([1] : List ℚ), ([1] : List ℚ), ([false] : List Bool))])
    ∧ SPD.run [(([1, 0] : List ℚ), ([true, false] : List Bool)),
        (([1] : List ℚ), ([true] : List Bool))] =
      SPD.run [(([1] : List ℚ), ([true] : List Bool)),
        (([1, 0] : List ℚ), ([true, false] : List Bool))]
    ∧ EOD.run [(([1] : List ℚ), ([1] : List ℚ), ([false] : List Bool)),
        (([0] : List ℚ), ([1] : List ℚ), ([true] : List Bool))] =
      EOD.run [(([0] : List ℚ), ([1] : List ℚ), ([true] : List Bool)),
        (([1] : List ℚ), ([1] : List ℚ), ([false] : List Bool))] := by
  refine ⟨List.Perm.swap _ _ [], List.Perm.swap _ _ [], ?_, ?_⟩
  · exact (C8_update_order_invariance _ _ [] []
      (List.Perm.swap _ _ []) (List.Perm.refl _)).1
  · exact (C8_update_order_invariance [] [] _ _
      (List.Perm.refl _) (List.Perm.swap _ _ [])).2

/-- C5: for every update history whose predictions are in `{0, 1}`
(and, for EOD, targets in `{0, 1}`, with matching batch lengths), the
value of `SPD.compute` and `EOD.compute` lies in `[0, 1]`. -/
theorem C5_compute_in_unit_interval :
    (∀ bs : List (List ℚ × List Bool),
        (∀ b ∈ bs, ∀ x ∈ b.1, x = 0 ∨ x = 1) →
        0 ≤ SPD.compute (SPD.run bs) ∧ SPD.compute (SPD.run bs) ≤ 1)
    ∧ ∀ cs : List (List ℚ × List ℚ × List Bool),
        (∀ b ∈ cs, (∀ x ∈ b.1, x = 0 ∨ x = 1)
          ∧ (∀ x ∈ b.2.1, x = 0 ∨ x = 1)
          ∧ b.1.length = b.2.1.length ∧ b.1.length = b.2.2.length) →
        0 ≤ EOD.compute (EOD.run cs) ∧ EOD.compute (EOD.run cs) ≤ 1 := by
  constructor
  · intro bs _
    have h := spd_run_invariant bs MState.init (le_refl 0) (le_refl 0)
    exact compute_bounds _ h.1 h.2
  · intro cs h
    have h' := eod_run_invariant cs
      (fun b hb => ⟨(h b hb).2.2.1, (h b hb).2.2.2⟩)
      MState.init (le_refl 0) (le_refl 0)
    rw [eod_compute_eq_spd]
    exact compute_bounds _ h'.1 h'.2

/-- C5 witness: concrete one-batch histories for both metrics. -/
theorem C5_witness :
    (∀ b ∈ [(([1, 0, 1] : List ℚ), ([true, false, true] : List Bool))],
        ∀ x ∈ b.1, x = 0 ∨ x = 1)
    ∧ (0 ≤ SPD.compute
          (SPD.run [(([1, 0, 1] : List ℚ),
            ([true, false, true] : List Bool))])
        ∧ SPD.compute (SPD.run [(([1, 0, 1] : List ℚ),
            ([true, false, true] : List Bool))]) ≤ 1)
    ∧ (0 ≤ EOD.compute
          (EOD.run [(([1, 0] : List ℚ), ([1, 1] : List ℚ),
            ([true, false] : List Bool))])
        ∧ EOD.compute (EOD.run [(([1, 0] : List ℚ), ([1, 1] : List ℚ),
            ([true, false] : List Bool))]) ≤ 1) :=
  ⟨by decide,
   C5_compute_in_unit_interval.1
     [(([1, 0, 1] : List ℚ), ([true, false, true] : List Bool))]
     (by decide),
   C5_compute_in_unit_interval.2
     [(([1, 0] : List ℚ), ([1, 1] : List ℚ), ([true, false] : List Bool))]
     (by decide)⟩

/-- C2 counterexample: on `preds=[1,1,0,0]`, `targets=[1,0,1,0]`,
`adv_mask=[True,False,True,False]`, index 2 is advantaged (its mask
entry is `True`), so the positively-labeled advantaged subset is
`{0, 2}` with predictions `[1, 0]`; `compute()` returns `1/2`, not
`1.0` as the claim states. -/
theorem C2_counterexample :
    EOD.update MState.init [1, 1, 0, 0] [1, 0, 1, 0]
        [true, false, true, false] = some ⟨1, 0, 2, 0⟩
      ∧ EOD.compute ⟨1, 0, 2, 0⟩ = 1 / 2 ∧ (1 / 2 : ℚ) ≠ 1 := by
  refine ⟨by decide, ?_, by norm_num⟩
  show |(1 : ℚ) / 2 - 0 / 1| = 1 / 2
  norm_num

/-- C2 amended: `EOD.update` restricts accounting to the subset with
`targets = 1` and partitions it by `adv_mask` into the four counters;
on the worked example `preds=[1,1,0,0]`, `targets=[1,0,1,0]`,
`adv_mask=[True,False,True,False]`, `compute()` returns `1/2`
(`p_adv = 1/2` from indices `{0, 2}`, `p_dis = 0`), not `1.0`. -/
theorem C2_amended_eod_accounting :
    (∀ (s : MState) (p t : List ℚ) (m : List Bool),
        p.length = t.length → p.length = m.length →
        (∀ x ∈ t, x = 0 ∨ x = 1) →
        EOD.update s p t m = some
          { preds_adv_pos := s.preds_adv_pos +
              ((p.zip (t.zip m)).countP
                fun x => decide (x.1 = 1 ∧ x.2.1 = 1 ∧ x.2.2 = true))
            preds_dis_pos := s.preds_dis_pos +
              ((p.zip (t.zip m)).countP
                fun x => decide (x.1 = 1 ∧ x.2.1 = 1 ∧ x.2.2 = false))
            num_adv := s.num_adv +
              ((t.zip m).countP fun x => decide (x.1 = 1 ∧ x.2 = true))
            num_dis := s.num_dis +
              ((t.zip m).countP fun x => decide (x.1 = 1 ∧ x.2 = false)) })
    ∧ EOD.compute (EOD.updateCore MState.init [1, 1, 0, 0] [1, 0, 1, 0]
        [true, false, true, false]) = 1 / 2 := by
  constructor
  · intro s p t m hpt hpm ht
    have htm : t.length = m.length := by omega
    have hadv := eod_count_sel id p t m hpt hpm ht
    have hdis := eod_count_sel not p t m hpt hpm ht
    have hnadv := eod_count_num id t m htm ht
    have hndis := eod_count_num not t m htm ht
    rw [List.map_id] at hadv hnadv
    rw [eod_update_eq_core s p t m hpt hpm]
    refine congrArg some (MState.ext ?_ ?_ ?_ ?_) <;>
      simp only [EOD.updateCore]
    · rw [hadv]
      refine congrArg _ (List.countP_congr fun x _ => ?_)
      simp
    · rw [hdis]
      refine congrArg _ (List.countP_congr fun x _ => ?_)
      simp
    · rw [hnadv]
      refine congrArg _ (List.countP_congr fun x _ => ?_)
      simp
    · rw [hndis]
      refine congrArg _ (List.countP_congr fun x _ => ?_)
      simp
  · show |(1 : ℚ) / 2 - 0 / 1| = 1 / 2
    norm_num

/-- C2 witness: the amended accounting evaluated on the worked example. -/
theorem C2_witness :
    (([1, 1, 0, 0] : List ℚ).length = ([1, 0, 1, 0] : List ℚ).length)
    ∧ (∀ x ∈ ([1, 0, 1, 0] : List ℚ), x = 0 ∨ x = 1)
    ∧ EOD.update MState.init [1, 1, 0, 0] [1, 0, 1, 0]
        [true, false, true, false] = some ⟨1, 0, 2, 0⟩ :=
  ⟨by decide, by decide,
   (C2_amended_eod_accounting.1 MState.init [1, 1, 0, 0] [1, 0, 1, 0]
      [true, false, true, false] (by decide) (by decide) (by decide)).trans
     (by decide)⟩

/-- C10 counterexample: `EOD.update` called with `targets` of length 1
against `preds`/`adv_mask` of length 2 is a length mismatch, yet
`torch.logical_and` broadcasts the length-1 tensor, the call succeeds,
and the accumulator changes — it is not rejected. -/
theorem C10_counterexample :
    (([1] : List ℚ).length ≠ ([true, false] : List Bool).length)
    ∧ EOD.update MState.init [1, 1] [1] [true, false] = some ⟨1, 1, 1, 1⟩
    ∧ EOD.update MState.init [1, 1] [1] [true, false] ≠ none
    ∧ (⟨1, 1, 1, 1⟩ : MState) ≠ MState.init := by decide

/-- C10 amended: `SPD.update` rejects any `preds`/`adv_mask` length
mismatch and `FairnessLoss.forward` rejects any `X`/`theta` shape
incompatibility, leaving no state change; `EOD.update` rejects a
`targets`/`adv_mask` length mismatch only when neither has length 1
(a length-1 operand is silently broadcast by `torch.logical_and`), and
with matching `targets`/`adv_mask` it rejects a `preds` length
mismatch. -/
theorem C10_amended_shape_mismatch_rejection :
    (∀ (s : MState) (p : List ℚ) (m : List Bool),
        p.length ≠ m.length → SPD.update s p m = none)
    ∧ (∀ (idx : ℕ) (X : List (List ℚ)) (theta : List ℚ),
        (∃ r ∈ X, r.length ≠ theta.length - 1) →
        FairnessLoss.forward idx X theta = none)
    ∧ (∀ (s : MState) (p t : List ℚ) (m : List Bool),
        t.length ≠ m.length → t.length ≠ 1 → m.length ≠ 1 →
        EOD.update s p t m = none)
    ∧ (∀ (s : MState) (p t : List ℚ) (m : List Bool),
        t.length = m.length → p.length ≠ m.length →
        EOD.update s p t m = none) := by
  refine ⟨?_, ?_, ?_, ?_⟩
  · intro s p m h
    unfold SPD.update
    rw [if_neg (fun hc => h hc.symm)]
  · intro idx X theta h
    obtain ⟨r, hr, hlen⟩ := h
    have hmv : FairnessLoss.matVec X theta.dropLast = none := by
      unfold FairnessLoss.matVec
      rw [if_neg]
      intro hall
      exact hlen (by simpa [List.length_dropLast] using
        of_decide_eq_true (List.all_eq_true.mp hall r hr))
    cases hcol : FairnessLoss.column X idx with
    | none => simp [FairnessLoss.forward, hcol]
    | some z => simp [FairnessLoss.forward, hcol, hmv]
  · intro s p t m h1 h2 h3
    have hla : logicalAnd m (t.map fun x => decide (x ≠ 0)) = none :=
      logicalAnd_eq_none (by simp only [List.length_map]; omega) h3
        (by simp only [List.length_map]; omega)
    simp only [EOD.update]
    rw [hla]
    rfl
  · intro s p t m htm hpm
    have h1 : m.length = (t.map fun x => decide (x ≠ 0)).length := by
      simp only [List.length_map]; omega
    have h2 : (m.map not).length =
        (t.map fun x => decide (x ≠ 0)).length := by
      simp only [List.length_map]; omega
    have h3 : ¬((List.zipWith (· && ·) m
        (t.map fun x => decide (x ≠ 0))).length = p.length) := by
      simp only [List.length_zipWith, List.length_map]; omega
    simp only [EOD.update, logicalAnd, maskIndex]
    rw [if_pos h1, if_pos h2]
    simp only [Option.bind_eq_bind, Option.some_bind]
    rw [if_neg h3]
    rfl

/-- C10 witness: each rejection evaluated at a concrete mismatch. -/
theorem C10_witness :
    SPD.update MState.init [1] [] = none
    ∧ FairnessLoss.forward 0 [[1]] [1, 2, 3] = none
    ∧ EOD.update MState.init [1, 1, 1] [1, 1] [true, false, true] = none
    ∧ EOD.update MState.init [1] [1, 1] [true, false] = none :=
  ⟨C10_amended_shape_mismatch_rejection.1 MState.init [1] [] (by decide),
   C10_amended_shape_mismatch_rejection.2.1 0 [[1]] [1, 2, 3]
     ⟨[1], by decide, by decide⟩,
   C10_amended_shape_mismatch_rejection.2.2.1 MState.init [1, 1, 1] [1, 1]
     [true, false, true] (by decide) (by decide) (by decide),
   C10_amended_shape_mismatch_rejection.2.2.2 MState.init [1] [1, 1]
     [true, false] (by decide) (by decide)⟩

/-- C3: for a feature matrix of rows of width `D`, sensitive index
`idx < D` and a 1-D `theta` of length `D + 1`, `FairnessLoss.forward`
returns `mean((z - mean(z)) * (X @ theta[:-1]))` with
`z = X[:, idx]` — stated against `covSpec`, the spec formula written
with explicit index sums and the bias entry `theta[-1]` excluded. -/
theorem C3_forward_is_centered_covariance (idx D : ℕ) (X : List (List ℚ))
    (theta : List ℚ) (hrows : ∀ r ∈ X, r.length = D)
    (hidx : idx < D) (htheta : theta.length = D + 1) :
    FairnessLoss.forward idx X theta =
      some (FairnessLoss.covSpec idx X theta) := by
  have hcol : FairnessLoss.column X idx =
      some (X.map (fun r => r.getD idx 0)) := by
    unfold FairnessLoss.column
    rw [if_pos]
    rw [List.all_eq_true]
    intro r hr
    exact decide_eq_true (by rw [hrows r hr]; exact hidx)
  have hmv : FairnessLoss.matVec X theta.dropLast =
      some (X.map (fun r => FairnessLoss.dot r theta.dropLast)) := by
    unfold FairnessLoss.matVec
    rw [if_pos]
    rw [List.all_eq_true]
    intro r hr
    exact decide_eq_true (by
      rw [List.length_dropLast, htheta, hrows r hr]; omega)
  simp only [FairnessLoss.forward, hcol, hmv, Option.bind_eq_bind,
    Option.some_bind]
  congr 1
  rw [zipWith_map_same]
  simp only [FairnessLoss.covSpec]
  rw [range_map_getD X ([] : List ℚ) (fun r => r.getD idx 0)]
  rw [range_map_getD X ([] : List ℚ)
    (fun r => (r.getD idx 0 -
        (List.map (fun r => r.getD idx 0) X).sum / (X.length : ℚ)) *
      ((List.range (theta.length - 1)).map
        (fun k => r.getD k 0 * theta.getD k 0)).sum)]
  simp only [FairnessLoss.listMean, List.length_map]
  congr 1
  refine congrArg List.sum (List.map_congr_left fun r hr => ?_)
  rw [dot_dropLast_eq_range_sum r theta D (hrows r hr) htheta]

/-- C3 witness: a concrete 2×2 matrix and 3-entry `theta`; both sides
evaluate to `8`. -/
theorem C3_witness :
    FairnessLoss.forward 0 [[1, 2], [3, 4]] [3, 5, 7] =
      some (FairnessLoss.covSpec 0 [[1, 2], [3, 4]] [3, 5, 7])
    ∧ FairnessLoss.covSpec 0 [[1, 2], [3, 4]] [3, 5, 7] = 8 :=
  ⟨C3_forward_is_centered_covariance 0 2 [[1, 2], [3, 4]] [3, 5, 7]
     (by decide) (by decide) (by decide),
   by norm_num [FairnessLoss.covSpec, List.range_succ]⟩

/-- C4: when the sensitive-attribute column is constant across all rows
of a non-empty `X` (with shapes compatible with the 1-D `theta`),
`FairnessLoss.forward` evaluates to exactly `0`. -/
theorem C4_constant_sensitive_column_zero_loss (idx D : ℕ) (c : ℚ)
    (X : List (List ℚ)) (theta : List ℚ) (hX : 0 < X.length)
    (hrows : ∀ r ∈ X, r.length = D) (hidx : idx < D)
    (htheta : theta.length = D + 1) (hconst : ∀ r ∈ X, r.getD idx 0 = c) :
    FairnessLoss.forward idx X theta = some 0 := by
  have hcol : FairnessLoss.column X idx =
      some (X.map (fun r => r.getD idx 0)) := by
    unfold FairnessLoss.column
    rw [if_pos]
    rw [List.all_eq_true]
    intro r hr
    exact decide_eq_true (by rw [hrows r hr]; exact hidx)
  have hmv : FairnessLoss.matVec X theta.dropLast =
      some (X.map (fun r => FairnessLoss.dot r theta.dropLast)) := by
    unfold FairnessLoss.matVec
    rw [if_pos]
    rw [List.all_eq_true]
    intro r hr
    exact decide_eq_true (by
      rw [List.length_dropLast, htheta, hrows r hr]; omega)
  have hz : X.map (fun r => r.getD idx 0) = List.replicate X.length c := by
    rw [List.eq_replicate_iff]
    refine ⟨by simp, ?_⟩
    intro b hb
    obtain ⟨r, hr, rfl⟩ := List.mem_map.mp hb
    exact hconst r hr
  have hmean : FairnessLoss.listMean (List.replicate X.length c) = c := by
    unfold FairnessLoss.listMean
    rw [List.sum_replicate, List.length_replicate, nsmul_eq_mul]
    exact mul_div_cancel_left₀ c (Nat.cast_ne_zero.mpr (by omega))
  simp only [FairnessLoss.forward, hcol, hmv, Option.bind_eq_bind,
    Option.some_bind, hz, hmean]
  congr 1
  unfold FairnessLoss.listMean
  rw [zipWith_center_replicate_sum c X.length _, zero_div]

/-- C4 witness: a matrix whose sensitive column is constantly `1`. -/
theorem C4_witness :
    (0 : ℕ) < ([[1, 2], [1, 4]] : List (List ℚ)).length
    ∧ (∀ r ∈ ([[1, 2], [1, 4]] : List (List ℚ)), r.getD 0 0 = 1)
    ∧ FairnessLoss.forward 0 [[1, 2], [1, 4]] [3, 5, 7] = some 0 :=
  ⟨by decide, by decide,
   C4_constant_sensitive_column_zero_loss 0 2 1 [[1, 2], [1, 4]] [3, 5, 7]
     (by decide) (by decide) (by decide) (by decide) (by decide)⟩

/-- C9 witness: a 2-dimensional `theta` is rejected. -/
theorem C9_witness :
    (FairnessLoss.PTensor.dim2 [[1]]).ndim ≠ 1
      ∧ FairnessLoss.forwardT 0 [[1]] (FairnessLoss.PTensor.dim2 [[1]]) =
        none :=
  ⟨by decide, C9_theta_must_be_one_dimensional.1 0 [[1]] _ (by decide)⟩

end FairnessAttacks
